/-
Verification of the heuristic URL scorer of the Vulnerabilities-Scanner
repository (`URLScanner.tsx`, function `performComprehensiveScan`, plus the
history handling in `handleScan`).

The TypeScript source is shallowly embedded: every rule of the scorer is a
Lean function producing the pushed `SecurityCheck` together with the score
penalty it applies; `performComprehensiveScan` combines them exactly in
source order.  The browser primitive `new URL(...)` is modelled by
`parseURL`, a simplified executable rendering of the WHATWG URL parser
(scheme split at the first colon, slash skipping, authority up to a
delimiter, userinfo before the last `@`, host/port split at the first
colon, digits-only port, ASCII lowercasing; IDNA, percent-decoding,
IPv4/IPv6 canonicalisation and the 65535 port bound are out of scope).
`Math.random()` outcomes are passed in as explicit parameters, and
`new Date()` as an explicit `now` parameter, so the embedding is a pure
function of the input and of those sampled values.

A scan that throws a `TypeError` to its caller is modelled by the value
`none`: in the source, the `return` statement rebuilds `new URL(inputUrl)`
for the metadata fields *outside* the `try`, so an input that fails to
parse makes the function throw even though the `catch` block has already
assembled a graceful "URL Format" failure result.
-/
import Mathlib

/-! ## Generic list helpers -/

/-- `isStart p l` is true iff `p` is an initial segment of `l`
(Boolean analogue of the prefix relation, kept self-contained). -/
def isStart : List Char → List Char → Bool
  | [], _ => true
  | _ :: _, [] => false
  | a :: p, b :: l => a = b && isStart p l

/-- `occursIn p l` is true iff `p` occurs contiguously inside `l`
(the semantics of JavaScript `String.prototype.includes`). -/
def occursIn (p : List Char) : List Char → Bool
  | [] => p.isEmpty
  | c :: l => isStart p (c :: l) || occursIn p (l)

/-- Split a character list at its first colon, returning the parts before
and after it; `none` when no colon occurs. -/
def splitAtColon : List Char → Option (List Char × List Char)
  | [] => none
  | c :: cs =>
    if c = ':' then some ([], cs)
    else match splitAtColon cs with
      | none => none
      | some (a, b) => some (c :: a, b)

/-! ## Model of the WHATWG `new URL` primitive -/

/-- The fields of the browser `URL` object that the scanner reads. -/
structure URLObj where
  protocol : String
  hostname : String
  port : String
deriving DecidableEq, Repr

/-- Characters permitted in a URL scheme (after the leading letter). -/
def isSchemeChar (c : Char) : Bool :=
  c.isAlpha || c.isDigit || c = '+' || c = '-' || c = '.'

/-- A slash as skipped by the special-authority-slashes state. -/
def isSlash (c : Char) : Bool := c = '/' || c = '\\'

/-- Characters terminating the authority component. -/
def isAuthorityEnd (c : Char) : Bool :=
  c = '/' || c = '\\' || c = '?' || c = '#'

/-- The WHATWG special schemes, whose URLs carry a nonempty host. -/
def specialSchemes : List String := ["http", "https", "ws", "wss", "ftp", "file"]

/-- ASCII lowercasing of a string, as performed on schemes and hosts
(and by `String.prototype.toLowerCase` on ASCII input). -/
def lower (s : String) : String := ⟨s.data.map Char.toLower⟩

/-- The authority component: skip the slashes after the scheme colon, then
read up to a delimiter. -/
def authorityOf (rest : List Char) : List Char :=
  (rest.dropWhile isSlash).takeWhile (fun c => !(isAuthorityEnd c))

/-- Drop any userinfo: keep what follows the last `@`. -/
def afterLastAt (l : List Char) : List Char :=
  (l.reverse.takeWhile (fun c => !(c = '@'))).reverse

/-- Host and port of the authority, split at the first colon. -/
def hostPortOf (rest : List Char) : List Char × List Char :=
  match splitAtColon (afterLastAt (authorityOf rest)) with
  | none => (afterLastAt (authorityOf rest), [])
  | some (h, p) => (h, p)

/-- Characters rejected inside a host. -/
def validHostChar (c : Char) : Bool := !(c = ' ' || c = '[' || c = ']')

/-- Model of the browser `new URL(input)` constructor: `none` models a
thrown `TypeError`. -/
def parseURL (input : String) : Option URLObj :=
  match splitAtColon input.data with
  | none => none
  | some (sc, rest) =>
    match sc with
    | [] => none
    | c :: cs =>
      if c.isAlpha && (c :: cs).all isSchemeChar then
        if specialSchemes.contains (lower ⟨c :: cs⟩) then
          if !(hostPortOf rest).1.isEmpty
              && (hostPortOf rest).1.all validHostChar
              && (hostPortOf rest).2.all Char.isDigit then
            some ⟨lower ⟨c :: cs⟩ ++ ":", lower ⟨(hostPortOf rest).1⟩,
                  ⟨(hostPortOf rest).2⟩⟩
          else none
        else
          some ⟨lower ⟨c :: cs⟩ ++ ":", "", ""⟩
      else none

/-- Decimal reading of a digit string, as `parseInt` does on the port. -/
def parseNatDigits (s : String) : Nat :=
  s.data.foldl (fun n c => n * 10 + (c.toNat - '0'.toNat)) 0

/-! ## Data model of the scanner (`URLScanner.tsx`, richer variant) -/

/-- Status of one security check. -/
inductive CheckStatus where
  | pass
  | fail
  | warning
deriving DecidableEq, Repr

/-- Impact level of one security check. -/
inductive Impact where
  | low
  | medium
  | high
deriving DecidableEq, Repr

/-- interface SecurityCheck. -/
structure SecurityCheck where
  name : String
  status : CheckStatus
  description : String
  impact : Impact
deriving DecidableEq, Repr

/-- Overall classification of a scan.  The constructor `danger` renders the
source's string literal for the worst level (a reserved word in Lean). -/
inductive ScanStatus where
  | safe
  | suspicious
  | danger
deriving DecidableEq, Repr

/-- The metadata block of a ScanResult. -/
structure Metadata where
  responseTime : Nat
  domain : String
  protocol : String
  port : Option Nat
  redirects : Nat
deriving DecidableEq, Repr

/-- interface ScanResult (`timestamp` modelled as milliseconds). -/
structure ScanResult where
  url : String
  status : ScanStatus
  score : Int
  checks : List SecurityCheck
  metadata : Metadata
  timestamp : Nat
deriving DecidableEq, Repr

/-- JavaScript `haystack.includes(needle)`. -/
def jsIncludes (s sub : String) : Bool := occursIn sub.data s.data

/-- The `suspiciousDomains` array of the source. -/
def suspiciousDomains : List String :=
  ["bit.ly", "tinyurl.com", "t.co", "goo.gl", "localhost", "127.0.0.1"]

/-- The `phishingPatterns` array of the source. -/
def phishingPatterns : List String :=
  ["secure-update", "verify-account", "suspended-account", "urgent-action"]

/-- The `maliciousExtensions` array of the source. -/
def maliciousExtensions : List String := [".exe", ".scr", ".bat", ".cmd", ".pif"]

/-- HTTPS check: the pushed check and the score decrement it causes. -/
def httpsCheck (protocol : String) : SecurityCheck × Int :=
  if protocol = "https:" then
    ({ name := "HTTPS Protocol", status := .pass,
       description := "Site uses secure HTTPS connection", impact := .high }, 0)
  else
    ({ name := "HTTPS Protocol", status := .fail,
       description := "Site does not use secure HTTPS connection", impact := .high }, 30)

/-- Domain reputation check against `suspiciousDomains`. -/
def domainReputationCheck (domain : String) : SecurityCheck × Int :=
  if suspiciousDomains.any (fun suspicious => jsIncludes domain suspicious) then
    ({ name := "Domain Reputation", status := .warning,
       description := "Domain is a URL shortener or potentially suspicious",
       impact := .medium }, 20)
  else
    ({ name := "Domain Reputation", status := .pass,
       description := "Domain appears legitimate", impact := .medium }, 0)

/-- URL length analysis. -/
def urlLengthCheck (inputUrl : String) : SecurityCheck × Int :=
  if inputUrl.length > 200 then
    ({ name := "URL Length", status := .warning,
       description := "Unusually long URL detected (potential obfuscation)",
       impact := .low }, 10)
  else
    ({ name := "URL Length", status := .pass,
       description := "URL length is within normal range", impact := .low }, 0)

/-- Phishing keyword check. -/
def phishingCheck (inputUrl : String) : SecurityCheck × Int :=
  if phishingPatterns.any (fun pattern => jsIncludes (lower inputUrl) pattern) then
    ({ name := "Phishing Indicators", status := .fail,
       description := "Contains common phishing keywords", impact := .high }, 25)
  else
    ({ name := "Phishing Indicators", status := .pass,
       description := "No common phishing patterns detected", impact := .high }, 0)

/-- Dangerous file extension check. -/
def fileTypeCheck (inputUrl : String) : SecurityCheck × Int :=
  if maliciousExtensions.any (fun ext => jsIncludes (lower inputUrl) ext) then
    ({ name := "File Type Safety", status := .fail,
       description := "URL points to potentially dangerous file type",
       impact := .high }, 35)
  else
    ({ name := "File Type Safety", status := .pass,
       description := "No dangerous file extensions detected", impact := .medium }, 0)

/-- SSL certificate simulation (mirrors the https test, no decrement). -/
def sslCheck (protocol : String) : SecurityCheck × Int :=
  if protocol = "https:" then
    ({ name := "SSL Certificate", status := .pass,
       description := "Valid SSL certificate (simulated check)", impact := .high }, 0)
  else
    ({ name := "SSL Certificate", status := .fail,
       description := "No SSL certificate available", impact := .high }, 0)

/-- Security headers simulation; `hasSecurityHeaders` stands for the
sampled outcome of `Math.random() > 0.3`. -/
def securityHeadersCheck (hasSecurityHeaders : Bool) : SecurityCheck × Int :=
  (({ name := "Security Headers",
      status := if hasSecurityHeaders then .pass else .warning,
      description :=
        if hasSecurityHeaders then "Essential security headers detected"
        else "Missing important security headers (CSP, HSTS)",
      impact := .medium } : SecurityCheck),
   if hasSecurityHeaders then 0 else 15)

/-- The single check pushed by the `catch` branch. -/
def urlFormatCheck : SecurityCheck :=
  { name := "URL Format", status := .fail,
    description := "Invalid URL format", impact := .high }

/-- The `checks` list and (unclamped) `score` accumulated by the body of
`performComprehensiveScan`: the seven rules in source order on a parsed
URL, or the `catch` branch on a parse failure. -/
def scanChecksScore (hasSecurityHeaders : Bool) (inputUrl : String) :
    List SecurityCheck × Int :=
  match parseURL inputUrl with
  | some urlObj =>
    ([(httpsCheck urlObj.protocol).1,
      (domainReputationCheck urlObj.hostname).1,
      (urlLengthCheck inputUrl).1,
      (phishingCheck inputUrl).1,
      (fileTypeCheck inputUrl).1,
      (sslCheck urlObj.protocol).1,
      (securityHeadersCheck hasSecurityHeaders).1],
     100 - (httpsCheck urlObj.protocol).2
         - (domainReputationCheck urlObj.hostname).2
         - (urlLengthCheck inputUrl).2
         - (phishingCheck inputUrl).2
         - (fileTypeCheck inputUrl).2
         - (sslCheck urlObj.protocol).2
         - (securityHeadersCheck hasSecurityHeaders).2)
  | none => ([urlFormatCheck], 0)

/-- `if (score >= 80) ... else if (score >= 50) ... else ...`, computed on
the unclamped score. -/
def scanStatus (score : Int) : ScanStatus :=
  if score ≥ 80 then .safe else if score ≥ 50 then .suspicious else .danger

/-- `performComprehensiveScan`.  `hasSecurityHeaders`, `respTimeRand`
(`Math.floor(Math.random() * 1000)`), `redirectsRand`
(`Math.floor(Math.random() * 3)`) and `now` are the sampled environment
values.  The result is `none` when the function throws: on an unparseable
input the `return` statement's metadata block re-runs `new URL(inputUrl)`
outside the `try`, so the `catch`-branch result (`scanChecksScore`'s second
case) is discarded and a `TypeError` propagates to the caller. -/
def performComprehensiveScan (hasSecurityHeaders : Bool)
    (respTimeRand redirectsRand now : Nat) (inputUrl : String) :
    Option ScanResult :=
  match parseURL inputUrl with
  | none => none
  | some u =>
    some { url := inputUrl
           status := scanStatus (scanChecksScore hasSecurityHeaders inputUrl).2
           score := max 0 (scanChecksScore hasSecurityHeaders inputUrl).2
           checks := (scanChecksScore hasSecurityHeaders inputUrl).1
           metadata := { responseTime := respTimeRand + 200
                         domain := u.hostname
                         protocol := u.protocol
                         port := if u.port = "" then none
                                 else some (parseNatDigits u.port)
                         redirects := redirectsRand }
           timestamp := now }

/-! ## History handling (`handleScan`) -/

/-- `setScanHistory(prev => [result, ...prev.slice(0, 19)])` of the richer
variant (cap 20). -/
def handleScanHistory (result : ScanResult) (prev : List ScanResult) :
    List ScanResult :=
  result :: prev.take 19

/-- `setScanHistory(prev => [result, ...prev.slice(0, 9)])` of the simpler
variant (`src/components/URLScanner.tsx`, cap 10). -/
def handleScanHistorySimple (result : ScanResult) (prev : List ScanResult) :
    List ScanResult :=
  result :: prev.take 9

/-- History after a sequence of scans, richer variant, oldest scan first. -/
def historyAfter (results : List ScanResult) : List ScanResult :=
  results.foldl (fun h r => handleScanHistory r h) []

/-- History after a sequence of scans, simpler variant. -/
def historyAfterSimple (results : List ScanResult) : List ScanResult :=
  results.foldl (fun h r => handleScanHistorySimple r h) []

/-- Side conditions under which appending a suffix `e` to a URL cannot
change any string-matching rule except the extension rule itself: `e` is
nonempty, made of characters that are not slashes, authority delimiters,
colons, at-signs or digits, already lowercase, and neither contains any
denylist or phishing needle nor completes one across the append border. -/
def extOk (e : List Char) : Bool :=
  !(e.isEmpty)
  && e.all (fun c => !(isSlash c) && !(isAuthorityEnd c) && !(c = ':')
      && !(c = '@') && !(c.isDigit))
  && (e.map Char.toLower == e)
  && (suspiciousDomains ++ phishingPatterns).all (fun k =>
       !(occursIn k.data e)
       && (List.range k.data.length).all
            (fun j => (j == 0) || !(isStart (k.data.drop j) e)))

/-- A clean 198-character URL: appending `.exe` pushes it past the
200-character bound. -/
def cleanLongUrl : String := "https://example.com/" ++ ⟨List.replicate 178 'a'⟩

/-- A concrete scan result, used to instantiate the history lemmas. -/
def sampleResult : ScanResult :=
  { url := "https://example.com"
    status := .safe
    score := 100
    checks := (scanChecksScore true "https://example.com").1
    metadata := { responseTime := 200, domain := "example.com",
                  protocol := "https:", port := none, redirects := 0 }
    timestamp := 0 }

/-! ## Elementary facts about the individual rules -/

theorem httpsCheck_name (p : String) : (httpsCheck p).1.name = "HTTPS Protocol" := by
  unfold httpsCheck; split <;> rfl

theorem domainReputationCheck_name (d : String) :
    (domainReputationCheck d).1.name = "Domain Reputation" := by
  unfold domainReputationCheck; split <;> rfl

theorem urlLengthCheck_name (s : String) : (urlLengthCheck s).1.name = "URL Length" := by
  unfold urlLengthCheck; split <;> rfl

theorem phishingCheck_name (s : String) :
    (phishingCheck s).1.name = "Phishing Indicators" := by
  unfold phishingCheck; split <;> rfl

theorem fileTypeCheck_name (s : String) :
    (fileTypeCheck s).1.name = "File Type Safety" := by
  unfold fileTypeCheck; split <;> rfl

theorem sslCheck_name (p : String) : (sslCheck p).1.name = "SSL Certificate" := by
  unfold sslCheck; split <;> rfl

theorem securityHeadersCheck_name (f : Bool) :
    (securityHeadersCheck f).1.name = "Security Headers" := rfl

theorem httpsCheck_pen (p : String) : (httpsCheck p).2 = 0 ∨ (httpsCheck p).2 = 30 := by
  unfold httpsCheck; split <;> simp

theorem domainReputationCheck_pen (d : String) :
    (domainReputationCheck d).2 = 0 ∨ (domainReputationCheck d).2 = 20 := by
  unfold domainReputationCheck; split <;> simp

theorem urlLengthCheck_pen (s : String) :
    (urlLengthCheck s).2 = 0 ∨ (urlLengthCheck s).2 = 10 := by
  unfold urlLengthCheck; split <;> simp

theorem phishingCheck_pen (s : String) :
    (phishingCheck s).2 = 0 ∨ (phishingCheck s).2 = 25 := by
  unfold phishingCheck; split <;> simp

theorem fileTypeCheck_pen (s : String) :
    (fileTypeCheck s).2 = 0 ∨ (fileTypeCheck s).2 = 35 := by
  unfold fileTypeCheck; split <;> simp

theorem sslCheck_pen (p : String) : (sslCheck p).2 = 0 := by
  unfold sslCheck; split <;> rfl

theorem securityHeadersCheck_pen (f : Bool) :
    (securityHeadersCheck f).2 = 0 ∨ (securityHeadersCheck f).2 = 15 := by
  cases f <;> simp [securityHeadersCheck]

theorem httpsCheck_pen0 {p : String} (h : p = "https:") : (httpsCheck p).2 = 0 := by
  unfold httpsCheck; rw [if_pos h]

theorem domainReputationCheck_pen0 {d : String}
    (h : suspiciousDomains.any (fun x => jsIncludes d x) = false) :
    (domainReputationCheck d).2 = 0 := by
  unfold domainReputationCheck
  rw [if_neg (by rw [h]; exact Bool.false_ne_true)]

theorem domainReputationCheck_pen20 {d : String}
    (h : suspiciousDomains.any (fun x => jsIncludes d x) = true) :
    (domainReputationCheck d).2 = 20 := by
  unfold domainReputationCheck; rw [if_pos h]

theorem urlLengthCheck_pen0 {s : String} (h : s.length ≤ 200) :
    (urlLengthCheck s).2 = 0 := by
  unfold urlLengthCheck; rw [if_neg (by omega)]

theorem phishingCheck_pen0 {s : String}
    (h : phishingPatterns.any (fun p => jsIncludes (lower s) p) = false) :
    (phishingCheck s).2 = 0 := by
  unfold phishingCheck
  rw [if_neg (by rw [h]; exact Bool.false_ne_true)]

theorem fileTypeCheck_pen0 {s : String}
    (h : maliciousExtensions.any (fun x => jsIncludes (lower s) x) = false) :
    (fileTypeCheck s).2 = 0 := by
  unfold fileTypeCheck
  rw [if_neg (by rw [h]; exact Bool.false_ne_true)]

theorem fileTypeCheck_pen35 {s : String}
    (h : maliciousExtensions.any (fun x => jsIncludes (lower s) x) = true) :
    (fileTypeCheck s).2 = 35 := by
  unfold fileTypeCheck; rw [if_pos h]

/-! ## Shape of a returned scan result -/

theorem scanChecksScore_parsed {f : Bool} {s : String} {u : URLObj}
    (h : parseURL s = some u) :
    scanChecksScore f s =
      ([(httpsCheck u.protocol).1, (domainReputationCheck u.hostname).1,
        (urlLengthCheck s).1, (phishingCheck s).1, (fileTypeCheck s).1,
        (sslCheck u.protocol).1, (securityHeadersCheck f).1],
       100 - (httpsCheck u.protocol).2 - (domainReputationCheck u.hostname).2
         - (urlLengthCheck s).2 - (phishingCheck s).2 - (fileTypeCheck s).2
         - (sslCheck u.protocol).2 - (securityHeadersCheck f).2) := by
  unfold scanChecksScore; rw [h]

theorem scan_eq_some {f : Bool} {rt rd n : Nat} {s : String} {r : ScanResult}
    (h : performComprehensiveScan f rt rd n s = some r) :
    ∃ u, parseURL s = some u ∧
      r.status = scanStatus (scanChecksScore f s).2 ∧
      r.score = max 0 (scanChecksScore f s).2 ∧
      r.checks = (scanChecksScore f s).1 := by
  unfold performComprehensiveScan at h
  cases hp : parseURL s with
  | none => rw [hp] at h; cases h
  | some u =>
    rw [hp] at h
    injection h with h
    subst h
    exact ⟨u, rfl, rfl, rfl, rfl⟩

theorem scanChecksScore_bounds (f : Bool) (s : String) :
    -35 ≤ (scanChecksScore f s).2 ∧ (scanChecksScore f s).2 ≤ 100 := by
  cases hp : parseURL s with
  | none => unfold scanChecksScore; rw [hp]; exact ⟨by norm_num, by norm_num⟩
  | some u =>
    rw [scanChecksScore_parsed hp]
    rcases httpsCheck_pen u.protocol with h1 | h1 <;>
    rcases domainReputationCheck_pen u.hostname with h2 | h2 <;>
    rcases urlLengthCheck_pen s with h3 | h3 <;>
    rcases phishingCheck_pen s with h4 | h4 <;>
    rcases fileTypeCheck_pen s with h5 | h5 <;>
    rcases securityHeadersCheck_pen f with h7 | h7 <;>
    rw [h1, h2, h3, h4, h5, sslCheck_pen, h7] <;> exact ⟨by norm_num, by norm_num⟩

theorem scanStatus_spec (raw : Int) :
    (scanStatus raw = .safe ↔ 80 ≤ max 0 raw) ∧
    (scanStatus raw = .suspicious ↔ 50 ≤ max 0 raw ∧ max 0 raw < 80) ∧
    (scanStatus raw = .danger ↔ max 0 raw < 50) := by
  have hm : max 0 raw = 0 ∨ max 0 raw = raw := max_choice 0 raw
  have hge : raw ≤ max 0 raw := le_max_right 0 raw
  have hge0 : (0 : Int) ≤ max 0 raw := le_max_left 0 raw
  unfold scanStatus
  split_ifs with h1 h2 <;>
    refine ⟨⟨fun hh => ?_, fun hh => ?_⟩, ⟨fun hh => ?_, fun hh => ?_⟩,
      ⟨fun hh => ?_, fun hh => ?_⟩⟩ <;>
    first
      | rfl
      | (exact absurd hh (by decide))
      | (rcases hm with hm | hm <;> omega)

/-! ## Claims C1 and C2: behaviour on an unparseable input -/

/-- Claim C1 (code bug).  The scorer is not total: on an input that fails to
parse, `performComprehensiveScan` throws (`none`) instead of returning the
`catch`-branch result, because the returned metadata re-runs
`new URL(inputUrl)` outside the `try`. -/
theorem scan_throws_on_invalid (f : Bool) (rt rd n : Nat) :
    parseURL "not a url" = none ∧
    performComprehensiveScan f rt rd n "not a url" = none :=
  ⟨rfl, rfl⟩

/-- Claim C2 (code bug).  The `catch` branch does accumulate exactly one
failing check with score forced to 0 (whose derived status would be the
worst level), but that result is unreachable: the scan of an unparseable
input throws instead of returning it. -/
theorem invalid_catch_branch_unreachable (f : Bool) (rt rd n : Nat) :
    scanChecksScore f "not a url" = ([urlFormatCheck], 0) ∧
    scanStatus (scanChecksScore f "not a url").2 = .danger ∧
    performComprehensiveScan f rt rd n "not a url" = none :=
  ⟨rfl, rfl, rfl⟩

/-! ## Claim C4: score range and status derivation -/

/-- Claim C4.  Whenever the scan returns a result, its score lies in
[0, 100] and its status is the stated function of the returned score. -/
theorem score_status_invariant (f : Bool) (rt rd n : Nat) (s : String)
    (r : ScanResult) (h : performComprehensiveScan f rt rd n s = some r) :
    0 ≤ r.score ∧ r.score ≤ 100 ∧
    (r.status = .safe ↔ 80 ≤ r.score) ∧
    (r.status = .suspicious ↔ 50 ≤ r.score ∧ r.score < 80) ∧
    (r.status = .danger ↔ r.score < 50) := by
  obtain ⟨u, hp, hst, hsc, hck⟩ := scan_eq_some h
  have hb := scanChecksScore_bounds f s
  have hs := scanStatus_spec (scanChecksScore f s).2
  have hm := max_choice 0 (scanChecksScore f s).2
  rw [hsc, hst]
  exact ⟨le_max_left _ _, by rcases hm with hm | hm <;> omega,
    hs.1, hs.2.1, hs.2.2⟩

/-- Witness for C4 at a concrete input. -/
theorem score_status_invariant_witness :
    (performComprehensiveScan true 0 0 0 "https://example.com").map
      (fun r => decide (0 ≤ r.score ∧ r.score ≤ 100 ∧ (r.status = .safe ↔ 80 ≤ r.score)))
      = some true := by
  obtain ⟨r, hr⟩ : ∃ r, performComprehensiveScan true 0 0 0 "https://example.com" = some r :=
    ⟨_, rfl⟩
  have h := score_status_invariant true 0 0 0 "https://example.com" r hr
  rw [hr]
  exact congrArg some (decide_eq_true ⟨h.1, h.2.1, h.2.2.1⟩)

/-! ## Claim C6: the shortener example scores 50, hence suspicious -/

/-- Counterexample to claim C6 as stated: with the header rule passing, the
shortener example produces score 50 and status `suspicious`, not the worst
level (the source maps any score ≥ 50 below 80 to `suspicious`). -/
theorem bitly_cex :
    (performComprehensiveScan true 0 0 0 "http://bit.ly/abc").map
      (fun r => (r.score, r.status)) = some (50, ScanStatus.suspicious) ∧
    ScanStatus.suspicious ≠ ScanStatus.danger :=
  ⟨rfl, by decide⟩

/-- Claim C6 (amended): with the header rule held to pass,
`scan("http://bit.ly/abc")` yields score 50 (https −30, reputation −20) and
status `suspicious`. -/
theorem bitly_scan_score (rt rd n : Nat) :
    (performComprehensiveScan true rt rd n "http://bit.ly/abc").map
      (fun r => (r.score, r.status)) = some (50, ScanStatus.suspicious) :=
  rfl

/-! ## Claim C9: sampled metadata values never influence the result -/

/-- Claim C9.  Two scans of the same input with the same header coin flip
agree on score, status and the entire checks list; the sampled response
time, redirect count and timestamp have no influence on them. -/
theorem randomness_not_observed (f : Bool) (s : String)
    (rt₁ rd₁ n₁ rt₂ rd₂ n₂ : Nat) :
    (performComprehensiveScan f rt₁ rd₁ n₁ s).map (fun r => (r.score, r.status, r.checks)) =
    (performComprehensiveScan f rt₂ rd₂ n₂ s).map (fun r => (r.score, r.status, r.checks)) := by
  unfold performComprehensiveScan
  cases parseURL s <;> rfl

/-! ## Claim C10: seven checks in a fixed order -/

/-- Claim C10.  Every returned result carries exactly these seven checks,
in source order, regardless of the input. -/
theorem checks_fixed_order (f : Bool) (rt rd n : Nat) (s : String)
    (r : ScanResult) (h : performComprehensiveScan f rt rd n s = some r) :
    r.checks.map SecurityCheck.name =
      ["HTTPS Protocol", "Domain Reputation", "URL Length", "Phishing Indicators",
       "File Type Safety", "SSL Certificate", "Security Headers"] := by
  obtain ⟨u, hp, _, _, hck⟩ := scan_eq_some h
  rw [hck, scanChecksScore_parsed hp]
  simp only [List.map_cons, List.map_nil, httpsCheck_name, domainReputationCheck_name,
    urlLengthCheck_name, phishingCheck_name, fileTypeCheck_name, sslCheck_name,
    securityHeadersCheck_name]

/-- Witness for C10 at a concrete input. -/
theorem checks_fixed_order_witness :
    (performComprehensiveScan true 0 0 0 "https://example.com").map
      (fun r => r.checks.map SecurityCheck.name) =
      some ["HTTPS Protocol", "Domain Reputation", "URL Length", "Phishing Indicators",
            "File Type Safety", "SSL Certificate", "Security Headers"] := by
  obtain ⟨r, hr⟩ : ∃ r, performComprehensiveScan true 0 0 0 "https://example.com" = some r :=
    ⟨_, rfl⟩
  rw [hr]
  exact congrArg some (checks_fixed_order true 0 0 0 "https://example.com" r hr)

/-! ## Claim C3: the domain reputation denylist -/

/-- Counterexample to claim C3 as stated: the host `192.168.0.1` contains
the claimed denylist entry `192.168.`, yet the richer variant's rule passes
it with no subtraction (its `suspiciousDomains` array has no private-range
prefixes), and the full scan still scores 100. -/
theorem domain_reputation_cex :
    (parseURL "https://192.168.0.1").map URLObj.hostname = some "192.168.0.1" ∧
    jsIncludes "192.168.0.1" "192.168." = true ∧
    (domainReputationCheck "192.168.0.1").1.status = CheckStatus.pass ∧
    (domainReputationCheck "192.168.0.1").2 = 0 ∧
    (performComprehensiveScan true 0 0 0 "https://192.168.0.1").map ScanResult.score
      = some 100 :=
  ⟨rfl, by decide, rfl, rfl, rfl⟩

/-- Claim C3 (amended).  The denylist is exactly the six literals
bit.ly, tinyurl.com, t.co, goo.gl, localhost, 127.0.0.1: a host containing
one of them gets a medium-impact warning subtracting 20 as the second
check, any other host passes with no subtraction. -/
theorem domain_reputation_rule (f : Bool) (rt rd n : Nat) (s : String)
    (u : URLObj) (r : ScanResult) (hp : parseURL s = some u)
    (h : performComprehensiveScan f rt rd n s = some r) :
    r.checks[1]? = some (domainReputationCheck u.hostname).1 ∧
    (suspiciousDomains.any (fun d => jsIncludes u.hostname d) = true →
      (domainReputationCheck u.hostname).1.status = .warning ∧
      (domainReputationCheck u.hostname).2 = 20) ∧
    (suspiciousDomains.any (fun d => jsIncludes u.hostname d) = false →
      (domainReputationCheck u.hostname).1.status = .pass ∧
      (domainReputationCheck u.hostname).2 = 0) := by
  obtain ⟨u', hp', _, _, hck⟩ := scan_eq_some h
  rw [hp] at hp'
  injection hp' with hp'
  subst hp'
  refine ⟨?_, fun hd => ?_, fun hd => ?_⟩
  · rw [hck, scanChecksScore_parsed hp]
    rfl
  · unfold domainReputationCheck
    rw [if_pos hd]
    exact ⟨rfl, rfl⟩
  · unfold domainReputationCheck
    rw [if_neg (by rw [hd]; exact Bool.false_ne_true)]
    exact ⟨rfl, rfl⟩

/-- Witness for the amended C3 at a concrete input on the match side. -/
theorem domain_reputation_rule_witness :
    (performComprehensiveScan true 0 0 0 "http://bit.ly/abc").map
      (fun r => r.checks[1]?) = some (some (domainReputationCheck "bit.ly").1) ∧
    (domainReputationCheck "bit.ly").1.status = .warning ∧
    (domainReputationCheck "bit.ly").2 = 20 := by
  obtain ⟨r, hr⟩ : ∃ r, performComprehensiveScan true 0 0 0 "http://bit.ly/abc" = some r :=
    ⟨_, rfl⟩
  have h := domain_reputation_rule true 0 0 0 "http://bit.ly/abc"
    ⟨"http:", "bit.ly", ""⟩ r rfl hr
  have hw := h.2.1 (by decide)
  refine ⟨?_, hw.1, hw.2⟩
  rw [hr]
  exact congrArg some h.1

/-! ## Claim C5: clean https URLs score high -/

/-- Claim C5.  A parseable `https:` URL whose host matches no denylist
entry, of length at most 200, with no phishing keyword and no dangerous
extension, scores at least 80; when the header rule passes it scores
exactly 100 with status safe. -/
theorem clean_https_score (f : Bool) (rt rd n : Nat) (s : String)
    (u : URLObj) (r : ScanResult)
    (hp : parseURL s = some u)
    (hhttps : u.protocol = "https:")
    (hdom : suspiciousDomains.any (fun d => jsIncludes u.hostname d) = false)
    (hlen : s.length ≤ 200)
    (hphish : phishingPatterns.any (fun p => jsIncludes (lower s) p) = false)
    (hext : maliciousExtensions.any (fun x => jsIncludes (lower s) x) = false)
    (h : performComprehensiveScan f rt rd n s = some r) :
    80 ≤ r.score ∧ (f = true → r.score = 100 ∧ r.status = .safe) := by
  obtain ⟨u', hp', hst, hsc, _⟩ := scan_eq_some h
  rw [hp] at hp'
  injection hp' with hp'
  subst hp'
  have hscore : (scanChecksScore f s).2 = 100 - (securityHeadersCheck f).2 := by
    rw [scanChecksScore_parsed hp, httpsCheck_pen0 hhttps,
      domainReputationCheck_pen0 hdom, urlLengthCheck_pen0 hlen,
      phishingCheck_pen0 hphish, fileTypeCheck_pen0 hext, sslCheck_pen]
    ring
  constructor
  · rw [hsc, hscore]
    rcases securityHeadersCheck_pen f with hc | hc <;> rw [hc] <;> decide
  · intro hf
    subst hf
    have hz : (securityHeadersCheck true).2 = 0 := rfl
    rw [hsc, hst, hscore, hz]
    exact ⟨by decide, by decide⟩

/-- Witness for C5: the spec's own example input, with the header rule
fixed to pass. -/
theorem clean_https_score_witness :
    (performComprehensiveScan true 0 0 0 "https://example.com").map
      (fun r => (r.score, r.status)) = some (100, ScanStatus.safe) := by
  obtain ⟨r, hr⟩ : ∃ r, performComprehensiveScan true 0 0 0 "https://example.com" = some r :=
    ⟨_, rfl⟩
  have h := clean_https_score true 0 0 0 "https://example.com"
    ⟨"https:", "example.com", ""⟩ r rfl rfl (by decide) (by decide) (by decide)
    (by decide) hr
  obtain ⟨hsc, hss⟩ := h.2 rfl
  rw [hr]
  show some (r.score, r.status) = some (100, ScanStatus.safe)
  rw [hsc, hss]

/-! ## Claim C8: bounded, append-only history -/

theorem foldl_cons_take (k : Nat) (rs : List ScanResult) :
    rs.foldl (fun h r => r :: h.take k) [] = rs.reverse.take (k + 1) := by
  induction rs using List.reverseRecOn with
  | nil => rfl
  | append_singleton l a ih =>
    rw [List.foldl_append, List.foldl_cons, List.foldl_nil, ih,
      List.reverse_append]
    simp [List.take_take, Nat.min_def]

theorem historyAfter_eq (rs : List ScanResult) :
    historyAfter rs = rs.reverse.take 20 :=
  foldl_cons_take 19 rs

theorem historyAfterSimple_eq (rs : List ScanResult) :
    historyAfterSimple rs = rs.reverse.take 10 :=
  foldl_cons_take 9 rs

/-- Claim C8.  The history never exceeds its cap (20 in the richer variant,
10 in the simpler one); the newest result sits at index 0; after cap + 1
scans the oldest entry has been evicted; and every stored entry is one of
the appended results, unchanged. -/
theorem history_bounded (rs : List ScanResult) :
    (historyAfter rs).length ≤ 20 ∧
    (historyAfterSimple rs).length ≤ 10 ∧
    (∀ r, (historyAfter (rs ++ [r])).head? = some r) ∧
    (∀ r, (historyAfterSimple (rs ++ [r])).head? = some r) ∧
    (rs.length = 21 → historyAfter rs = (rs.drop 1).reverse) ∧
    (rs.length = 11 → historyAfterSimple rs = (rs.drop 1).reverse) ∧
    (∀ x ∈ historyAfter rs, x ∈ rs) ∧
    (∀ x ∈ historyAfterSimple rs, x ∈ rs) := by
  refine ⟨?_, ?_, fun r => ?_, fun r => ?_, fun hl => ?_, fun hl => ?_,
    fun x hx => ?_, fun x hx => ?_⟩
  · rw [historyAfter_eq]; simp [List.length_take]
  · rw [historyAfterSimple_eq]; simp [List.length_take]
  · rw [historyAfter_eq, List.reverse_append]; rfl
  · rw [historyAfterSimple_eq, List.reverse_append]; rfl
  · rw [historyAfter_eq, List.reverse_drop, hl]
  · rw [historyAfterSimple_eq, List.reverse_drop, hl]
  · rw [historyAfter_eq] at hx
    exact List.mem_reverse.mp (List.mem_of_mem_take hx)
  · rw [historyAfterSimple_eq] at hx
    exact List.mem_reverse.mp (List.mem_of_mem_take hx)

/-- Witness for C8: after 21 appends the oldest entry is gone. -/
theorem history_bounded_witness :
    (List.replicate 21 sampleResult).length = 21 ∧
    historyAfter (List.replicate 21 sampleResult) =
      ((List.replicate 21 sampleResult).drop 1).reverse :=
  ⟨by simp, (history_bounded (List.replicate 21 sampleResult)).2.2.2.2.1 (by simp)⟩

/-! ## Claim C7: infrastructure on substring occurrences -/

theorem isStart_iff : ∀ p l : List Char, isStart p l = true ↔ ∃ t, p ++ t = l
  | [], l => by simp [isStart]
  | a :: p, [] => by simp [isStart]
  | a :: p, b :: l => by
    simp only [isStart, Bool.and_eq_true, decide_eq_true_eq]
    constructor
    · rintro ⟨rfl, h⟩
      obtain ⟨t, rfl⟩ := (isStart_iff p l).mp h
      exact ⟨t, rfl⟩
    · rintro ⟨t, h⟩
      injection h with h1 h2
      exact ⟨h1, (isStart_iff p l).mpr ⟨t, h2⟩⟩

theorem occursIn_iff : ∀ p l : List Char, occursIn p l = true ↔ ∃ s t, s ++ p ++ t = l
  | p, [] => by
    simp only [occursIn, List.isEmpty_iff]
    constructor
    · rintro rfl
      exact ⟨[], [], rfl⟩
    · rintro ⟨s, t, h⟩
      rcases List.append_eq_nil.mp h with ⟨h1, -⟩
      exact (List.append_eq_nil.mp h1).2
  | p, c :: l => by
    simp only [occursIn, Bool.or_eq_true]
    constructor
    · rintro (h | h)
      · obtain ⟨t, ht⟩ := (isStart_iff p (c :: l)).mp h
        exact ⟨[], t, by simpa using ht⟩
      · obtain ⟨s, t, rfl⟩ := (occursIn_iff p l).mp h
        exact ⟨c :: s, t, rfl⟩
    · rintro ⟨s, t, h⟩
      cases s with
      | nil => exact Or.inl ((isStart_iff p (c :: l)).mpr ⟨t, by simpa using h⟩)
      | cons x s =>
        injection h with h1 h2
        exact Or.inr ((occursIn_iff p l).mpr ⟨s, t, h2⟩)

theorem occursIn_append_self (p a : List Char) : occursIn p (a ++ p) = true :=
  (occursIn_iff p (a ++ p)).mpr ⟨a, [], by simp⟩

/-- If `k` occurs neither in `a` nor in `e`, and no nonempty proper suffix
of `k` is an initial segment of `e`, then `k` does not occur in `a ++ e`. -/
theorem occursIn_append_false (k a e : List Char)
    (h3 : occursIn k a = false) (h1 : occursIn k e = false)
    (h2 : ∀ j, 0 < j → j < k.length → isStart (k.drop j) e = false) :
    occursIn k (a ++ e) = false := by
  by_contra hc
  rw [Bool.not_eq_false] at hc
  obtain ⟨s, t, heq⟩ := (occursIn_iff k (a ++ e)).mp hc
  have hlen := congrArg List.length heq
  simp only [List.length_append] at hlen
  rcases le_or_lt (s.length + k.length) a.length with hle | hgt
  · -- the occurrence lies inside `a`
    have ha := congrArg (List.take a.length) heq
    rw [List.take_left] at ha
    rw [List.take_append_eq_append_take,
      List.take_of_length_le (show (s ++ k).length ≤ a.length by simp; omega)] at ha
    have : occursIn k a = true := (occursIn_iff k a).mpr ⟨s, _, ha⟩
    exact absurd this (by rw [h3]; exact Bool.false_ne_true)
  · rcases le_or_lt a.length s.length with hsle | hslt
    · -- the occurrence lies inside `e`
      have hd := congrArg (List.drop a.length) heq
      rw [List.drop_left] at hd
      rw [List.drop_append_eq_append_drop, List.drop_append_eq_append_drop,
        Nat.sub_eq_zero_of_le hsle, List.drop_zero,
        Nat.sub_eq_zero_of_le (show a.length ≤ (s ++ k).length by simp; omega),
        List.drop_zero] at hd
      have : occursIn k e = true :=
        (occursIn_iff k e).mpr ⟨s.drop a.length, t, hd⟩
      exact absurd this (by rw [h1]; exact Bool.false_ne_true)
    · -- the occurrence straddles the border between `a` and `e`
      have hd := congrArg (List.drop a.length) heq
      rw [List.drop_left] at hd
      rw [List.drop_append_eq_append_drop, List.drop_append_eq_append_drop,
        List.drop_of_length_le (le_of_lt hslt),
        Nat.sub_eq_zero_of_le (show a.length ≤ (s ++ k).length by simp; omega),
        List.drop_zero, List.nil_append] at hd
      have hj1 : 0 < a.length - s.length := by omega
      have hj2 : a.length - s.length < k.length := by omega
      have : isStart (k.drop (a.length - s.length)) e = true :=
        (isStart_iff _ _).mpr ⟨t, hd⟩
      exact absurd this (by rw [h2 _ hj1 hj2]; exact Bool.false_ne_true)

theorem takeWhile_append_all (p : Char → Bool) :
    ∀ a b : List Char, (∀ c ∈ a, p c = true) →
      List.takeWhile p (a ++ b) = a ++ List.takeWhile p b
  | [], b, _ => rfl
  | c :: a, b, h => by
    have hc : p c = true := h c (List.mem_cons_self c a)
    simp only [List.cons_append, List.takeWhile_cons, hc, if_true]
    rw [takeWhile_append_all p a b (fun x hx => h x (List.mem_cons_of_mem c hx))]

theorem takeWhile_all (p : Char → Bool) (a : List Char)
    (h : ∀ c ∈ a, p c = true) : List.takeWhile p a = a := by
  have := takeWhile_append_all p a [] h
  rwa [List.append_nil, List.takeWhile_nil, List.append_nil] at this

theorem takeWhile_append_stop (p : Char → Bool) :
    ∀ (a b : List Char) (x : Char), x ∈ a → p x = false →
      List.takeWhile p (a ++ b) = List.takeWhile p a
  | [], _, x, hx, _ => absurd hx (List.not_mem_nil x)
  | c :: a, b, x, hx, hpx => by
    rcases List.mem_cons.mp hx with rfl | hx'
    · simp [List.takeWhile_cons, hpx]
    · cases hc : p c with
      | false => simp [List.takeWhile_cons, hc]
      | true =>
        simp only [List.cons_append, List.takeWhile_cons, hc, if_true]
        rw [takeWhile_append_stop p a b x hx' hpx]

theorem dropWhile_append_keep (p : Char → Bool) :
    ∀ a b : List Char, List.dropWhile p a ≠ [] →
      List.dropWhile p (a ++ b) = List.dropWhile p a ++ b
  | [], _, h => absurd rfl h
  | c :: a, b, h => by
    cases hc : p c with
    | false => simp [List.dropWhile_cons, hc]
    | true =>
      rw [List.dropWhile_cons, if_pos hc] at h
      simp only [List.cons_append, List.dropWhile_cons, hc, if_true]
      exact dropWhile_append_keep p a b h

theorem splitAtColon_append :
    ∀ l t a b : List Char, splitAtColon l = some (a, b) →
      splitAtColon (l ++ t) = some (a, b ++ t)
  | [], _, _, _, h => Option.noConfusion h
  | c :: l, t, a, b, h => by
    by_cases hc : c = ':'
    · rw [splitAtColon, if_pos hc] at h
      injection h with h
      injection h with h1 h2
      subst h1
      subst h2
      rw [List.cons_append, splitAtColon, if_pos hc]
    · rw [splitAtColon, if_neg hc] at h
      cases hsp : splitAtColon l with
      | none => rw [hsp] at h; exact Option.noConfusion h
      | some pr =>
        rcases pr with ⟨a', b'⟩
        rw [hsp] at h
        injection h with h
        injection h with h1 h2
        subst h1
        subst h2
        rw [List.cons_append, splitAtColon, if_neg hc,
          splitAtColon_append l t a' b' hsp]

theorem splitAtColon_none_of :
    ∀ l : List Char, (∀ c ∈ l, c ≠ ':') → splitAtColon l = none
  | [], _ => rfl
  | c :: l, h => by
    rw [splitAtColon, if_neg (h c (List.mem_cons_self c l)),
      splitAtColon_none_of l (fun x hx => h x (List.mem_cons_of_mem c hx))]

theorem no_colon_of_splitAtColon_none :
    ∀ l : List Char, splitAtColon l = none → ∀ c ∈ l, c ≠ ':'
  | [], _, c, hc => absurd hc (List.not_mem_nil c)
  | c :: l, h, x, hx => by
    by_cases hc : c = ':'
    · rw [splitAtColon, if_pos hc] at h
      exact Option.noConfusion h
    · rw [splitAtColon, if_neg hc] at h
      rcases List.mem_cons.mp hx with rfl | hx'
      · exact hc
      · cases hsp : splitAtColon l with
        | none => exact no_colon_of_splitAtColon_none l hsp x hx'
        | some pr =>
          rcases pr with ⟨a, b⟩
          rw [hsp] at h
          exact Option.noConfusion h

theorem afterLastAt_append (l t : List Char) (h : ∀ c ∈ t, c ≠ '@') :
    afterLastAt (l ++ t) = afterLastAt l ++ t := by
  unfold afterLastAt
  rw [List.reverse_append,
    takeWhile_append_all _ t.reverse l.reverse
      (fun c hc => by simp [h c (List.mem_reverse.mp hc)]),
    List.reverse_append, List.reverse_reverse]

/-- Appending characters that are neither slashes, authority delimiters,
colons nor at-signs either leaves the host/port split unchanged (the
authority already ended inside `rest`), or extends the host (no port part
present), or extends the port. -/
theorem hostPortOf_append (rest e : List Char)
    (he : ∀ c ∈ e, isSlash c = false ∧ isAuthorityEnd c = false ∧
      c ≠ ':' ∧ c ≠ '@')
    (hne : (hostPortOf rest).1 ≠ []) :
    hostPortOf (rest ++ e) = hostPortOf rest ∨
    (hostPortOf (rest ++ e) = ((hostPortOf rest).1 ++ e, []) ∧
      (hostPortOf rest).2 = []) ∨
    hostPortOf (rest ++ e) = ((hostPortOf rest).1, (hostPortOf rest).2 ++ e) := by
  have hA : rest.dropWhile isSlash ≠ [] := by
    intro h0
    apply hne
    unfold hostPortOf authorityOf
    rw [h0]
    rfl
  have hdrop : (rest ++ e).dropWhile isSlash = rest.dropWhile isSlash ++ e :=
    dropWhile_append_keep _ rest e hA
  by_cases hstop : ∃ x ∈ rest.dropWhile isSlash, isAuthorityEnd x = true
  · left
    obtain ⟨x, hx, hpx⟩ := hstop
    unfold hostPortOf authorityOf
    rw [hdrop, takeWhile_append_stop _ _ e x hx (by simp [hpx])]
  · push_neg at hstop
    have hall : ∀ x ∈ rest.dropWhile isSlash, (!(isAuthorityEnd x)) = true :=
      fun x hx => by simp [Bool.eq_false_iff.mpr (hstop x hx)]
    have hauth0 : authorityOf rest = rest.dropWhile isSlash :=
      takeWhile_all _ _ hall
    have hauth : authorityOf (rest ++ e) = rest.dropWhile isSlash ++ e := by
      unfold authorityOf
      rw [hdrop, takeWhile_append_all _ _ e hall,
        takeWhile_all _ e (fun c hc => by simp [(he c hc).2.1])]
    have hafter : afterLastAt (rest.dropWhile isSlash ++ e) =
        afterLastAt (rest.dropWhile isSlash) ++ e :=
      afterLastAt_append _ e (fun c hc => (he c hc).2.2.2)
    cases hsp : splitAtColon (afterLastAt (rest.dropWhile isSlash)) with
    | none =>
      right; left
      have hrest : hostPortOf rest = (afterLastAt (rest.dropWhile isSlash), []) := by
        unfold hostPortOf
        rw [hauth0, hsp]
      have hnocolon : splitAtColon (afterLastAt (rest.dropWhile isSlash) ++ e) = none :=
        splitAtColon_none_of _ (by
          intro c hc
          rcases List.mem_append.mp hc with hc | hc
          · exact no_colon_of_splitAtColon_none _ hsp c hc
          · exact (he c hc).2.2.1)
      rw [hrest]
      unfold hostPortOf
      rw [hauth, hafter, hnocolon]
      exact ⟨rfl, rfl⟩
    | some pr =>
      right; right
      rcases pr with ⟨h1, p1⟩
      have hrest : hostPortOf rest = (h1, p1) := by
        unfold hostPortOf
        rw [hauth0, hsp]
      rw [hrest]
      unfold hostPortOf
      rw [hauth, hafter, splitAtColon_append _ e h1 p1 hsp]

/-- Appending a dangerous-extension-like suffix to a URL that parses keeps
the protocol and either keeps the hostname or extends it by exactly the
appended characters (when both sides parse). -/
theorem parseURL_append (s e : String) (u v : URLObj)
    (he : ∀ c ∈ e.data, isSlash c = false ∧ isAuthorityEnd c = false ∧
      c ≠ ':' ∧ c ≠ '@')
    (hdig : ∃ c ∈ e.data, c.isDigit = false)
    (hlow : e.data.map Char.toLower = e.data)
    (hu : parseURL s = some u) (hv : parseURL (s ++ e) = some v) :
    v.protocol = u.protocol ∧
      (v.hostname = u.hostname ∨ v.hostname = ⟨u.hostname.data ++ e.data⟩) := by
  have hdata : (s ++ e).data = s.data ++ e.data := by
    cases s
    cases e
    rfl
  unfold parseURL at hu hv
  rw [hdata] at hv
  cases hsp : splitAtColon s.data with
  | none => rw [hsp] at hu; exact Option.noConfusion hu
  | some pr =>
    rcases pr with ⟨sc, rest⟩
    rw [hsp] at hu
    rw [splitAtColon_append s.data e.data sc rest hsp] at hv
    cases sc with
    | nil => exact Option.noConfusion hu
    | cons c cs =>
      simp only [] at hu hv
      by_cases hguard : (c.isAlpha && (c :: cs).all isSchemeChar) = true
      · rw [if_pos hguard] at hu hv
        by_cases hspec : (specialSchemes.contains (lower ⟨c :: cs⟩)) = true
        · rw [if_pos hspec] at hu hv
          by_cases hg1 : (!(hostPortOf rest).1.isEmpty
              && (hostPortOf rest).1.all validHostChar
              && (hostPortOf rest).2.all Char.isDigit) = true
          · rw [if_pos hg1] at hu
            injection hu with hu
            have hne1 : (hostPortOf rest).1 ≠ [] := by
              intro h0
              rw [h0] at hg1
              simp at hg1
            rcases hostPortOf_append rest e.data he hne1 with hcase | ⟨hcase, hp0⟩ | hcase
            · rw [hcase, if_pos hg1] at hv
              injection hv with hv
              subst hu
              subst hv
              exact ⟨rfl, Or.inl rfl⟩
            · rw [hcase] at hv
              by_cases hg2 : (!((hostPortOf rest).1 ++ e.data, ([] : List Char)).1.isEmpty
                  && ((hostPortOf rest).1 ++ e.data, ([] : List Char)).1.all validHostChar
                  && ((hostPortOf rest).1 ++ e.data, ([] : List Char)).2.all Char.isDigit) = true
              · rw [if_pos hg2] at hv
                injection hv with hv
                subst hu
                subst hv
                refine ⟨rfl, Or.inr ?_⟩
                show lower ⟨(hostPortOf rest).1 ++ e.data⟩ =
                  ⟨(lower ⟨(hostPortOf rest).1⟩).data ++ e.data⟩
                unfold lower
                rw [List.map_append, hlow]
              · rw [if_neg hg2] at hv
                exact Option.noConfusion hv
            · rw [hcase] at hv
              obtain ⟨cd, hcd, hcdig⟩ := hdig
              have hfalse : (((hostPortOf rest).2 ++ e.data).all Char.isDigit) = false :=
                List.all_eq_false.mpr
                  ⟨cd, List.mem_append.mpr (Or.inr hcd), by simp [hcdig]⟩
              rw [show ((hostPortOf rest).1, (hostPortOf rest).2 ++ e.data).2
                  = (hostPortOf rest).2 ++ e.data from rfl] at hv
              rw [hfalse] at hv
              simp at hv
          · rw [if_neg hg1] at hu
            exact Option.noConfusion hu
        · rw [if_neg hspec] at hu hv
          injection hu with hu
          injection hv with hv
          subst hu
          subst hv
          exact ⟨rfl, Or.inl rfl⟩
      · rw [if_neg hguard] at hu
        exact Option.noConfusion hu

theorem data_append (a b : String) : (a ++ b).data = a.data ++ b.data := by
  cases a
  cases b
  rfl

theorem extOk_chars (e : List Char) (h : extOk e = true) :
    ∀ c ∈ e, isSlash c = false ∧ isAuthorityEnd c = false ∧
      c ≠ ':' ∧ c ≠ '@' := by
  intro c hc
  simp only [extOk, Bool.and_eq_true, List.all_eq_true, Bool.not_eq_true',
    decide_eq_false_iff_not] at h
  have hch := h.1.1.2 c hc
  exact ⟨hch.1.1.1.1, hch.1.1.1.2, hch.1.1.2, hch.1.2⟩

theorem extOk_digit (e : List Char) (h : extOk e = true) :
    ∃ c ∈ e, c.isDigit = false := by
  simp only [extOk, Bool.and_eq_true, List.all_eq_true, Bool.not_eq_true',
    decide_eq_false_iff_not] at h
  cases e with
  | nil => simp at h
  | cons c l =>
    exact ⟨c, List.mem_cons_self c l, (h.1.1.2 c (List.mem_cons_self c l)).2⟩

theorem extOk_lower (e : List Char) (h : extOk e = true) :
    e.map Char.toLower = e := by
  simp only [extOk, Bool.and_eq_true, beq_iff_eq] at h
  exact h.1.2

theorem extOk_nospan (e : List Char) (h : extOk e = true) (k : String)
    (hk : k ∈ suspiciousDomains ++ phishingPatterns) :
    occursIn k.data e = false ∧
      ∀ j, 0 < j → j < k.data.length → isStart (k.data.drop j) e = false := by
  simp only [extOk, Bool.and_eq_true, List.all_eq_true, Bool.not_eq_true',
    Bool.or_eq_true, beq_iff_eq, List.mem_range] at h
  obtain ⟨h1, h2⟩ := h.2 k hk
  refine ⟨h1, fun j hj1 hj2 => ?_⟩
  rcases h2 j hj2 with hj0 | hns
  · exact absurd hj0 (by omega)
  · exact hns

/-- Claim C7 (amended).  Appending one of the dangerous extensions to an
otherwise clean parseable URL lowers the returned score by exactly 35,
provided the extended URL still parses (otherwise the scan throws) and its
total length still does not exceed 200 (otherwise the length rule also
fires and the drop is 45). -/
theorem ext_append_score_drop (f : Bool) (rt rd n : Nat) (s ext : String)
    (u v : URLObj) (r r2 : ScanResult)
    (hext : ext ∈ maliciousExtensions)
    (hp : parseURL s = some u)
    (hp2 : parseURL (s ++ ext) = some v)
    (hdom : suspiciousDomains.any (fun d => jsIncludes u.hostname d) = false)
    (hphish : phishingPatterns.any (fun p => jsIncludes (lower s) p) = false)
    (hextc : maliciousExtensions.any (fun x => jsIncludes (lower s) x) = false)
    (hlen : (s ++ ext).length ≤ 200)
    (h : performComprehensiveScan f rt rd n s = some r)
    (h2 : performComprehensiveScan f rt rd n (s ++ ext) = some r2) :
    r2.score = r.score - 35 ∧ r2.score < r.score := by
  have hok : extOk ext.data = true := by
    have hall : maliciousExtensions.all (fun x => extOk x.data) = true := by decide
    exact List.all_eq_true.mp hall ext hext
  obtain ⟨hpr, hhost⟩ := parseURL_append s ext u v (extOk_chars ext.data hok)
    (extOk_digit ext.data hok) (extOk_lower ext.data hok) hp hp2
  obtain ⟨u1, hp1, hst1, hsc1, _⟩ := scan_eq_some h
  rw [hp] at hp1
  injection hp1 with hp1
  subst hp1
  obtain ⟨v1, hp1b, hst2, hsc2, _⟩ := scan_eq_some h2
  rw [hp2] at hp1b
  injection hp1b with hp1b
  subst hp1b
  have hlowapp : (lower (s ++ ext)).data = (lower s).data ++ ext.data := by
    show ((s ++ ext).data.map Char.toLower) = (s.data.map Char.toLower) ++ ext.data
    rw [data_append, List.map_append, extOk_lower ext.data hok]
  have hlen_s : s.length ≤ 200 := by
    rw [String.length_append] at hlen
    omega
  have hphish2 : phishingPatterns.any (fun p => jsIncludes (lower (s ++ ext)) p) = false := by
    rw [List.any_eq_false]
    intro p hpmem
    rw [Bool.not_eq_true]
    show occursIn p.data (lower (s ++ ext)).data = false
    rw [hlowapp]
    have h3 : occursIn p.data (lower s).data = false :=
      Bool.eq_false_iff.mpr (List.any_eq_false.mp hphish p hpmem)
    obtain ⟨h1n, h2n⟩ := extOk_nospan ext.data hok p
      (List.mem_append.mpr (Or.inr hpmem))
    exact occursIn_append_false p.data (lower s).data ext.data h3 h1n h2n
  have hdom2 : suspiciousDomains.any (fun d => jsIncludes v.hostname d) = false := by
    rcases hhost with hh | hh
    · rw [hh]
      exact hdom
    · rw [List.any_eq_false]
      intro d hdmem
      rw [Bool.not_eq_true]
      rw [hh]
      show occursIn d.data (u.hostname.data ++ ext.data) = false
      have h3 : occursIn d.data u.hostname.data = false :=
        Bool.eq_false_iff.mpr (List.any_eq_false.mp hdom d hdmem)
      obtain ⟨h1n, h2n⟩ := extOk_nospan ext.data hok d
        (List.mem_append.mpr (Or.inl hdmem))
      exact occursIn_append_false d.data u.hostname.data ext.data h3 h1n h2n
  have hext2 : maliciousExtensions.any (fun x => jsIncludes (lower (s ++ ext)) x) = true := by
    rw [List.any_eq_true]
    refine ⟨ext, hext, ?_⟩
    show occursIn ext.data (lower (s ++ ext)).data = true
    rw [hlowapp]
    exact occursIn_append_self ext.data (lower s).data
  have hs1 : (scanChecksScore f s).2 =
      100 - (httpsCheck u.protocol).2 - (securityHeadersCheck f).2 := by
    rw [scanChecksScore_parsed hp, domainReputationCheck_pen0 hdom,
      urlLengthCheck_pen0 hlen_s, phishingCheck_pen0 hphish,
      fileTypeCheck_pen0 hextc, sslCheck_pen]
    ring
  have hs2 : (scanChecksScore f (s ++ ext)).2 =
      100 - (httpsCheck u.protocol).2 - (securityHeadersCheck f).2 - 35 := by
    rw [scanChecksScore_parsed hp2, hpr, domainReputationCheck_pen0 hdom2,
      urlLengthCheck_pen0 hlen, phishingCheck_pen0 hphish2,
      fileTypeCheck_pen35 hext2, sslCheck_pen]
    ring
  rw [hsc1, hsc2, hs1, hs2]
  rcases httpsCheck_pen u.protocol with hh1 | hh1 <;>
    rcases securityHeadersCheck_pen f with hh7 | hh7 <;>
    rw [hh1, hh7] <;> exact ⟨by decide, by decide⟩

set_option maxRecDepth 4000 in
/-- Counterexample to claim C7 as stated: `cleanLongUrl` is a clean,
parseable 198-character https URL, yet appending `.exe` drops the score by
45 (the extension rule and the length rule both fire), not by 35. -/
theorem ext_append_cex :
    (parseURL cleanLongUrl).map URLObj.protocol = some "https:" ∧
    (parseURL cleanLongUrl).map URLObj.hostname = some "example.com" ∧
    cleanLongUrl.length = 198 ∧
    suspiciousDomains.any (fun d => jsIncludes "example.com" d) = false ∧
    phishingPatterns.any (fun p => jsIncludes (lower cleanLongUrl) p) = false ∧
    maliciousExtensions.any (fun x => jsIncludes (lower cleanLongUrl) x) = false ∧
    (performComprehensiveScan true 0 0 0 cleanLongUrl).map ScanResult.score = some 100 ∧
    (performComprehensiveScan true 0 0 0 (cleanLongUrl ++ ".exe")).map ScanResult.score
      = some 55 ∧
    (100 : Int) - 55 ≠ 35 := by
  refine ⟨rfl, rfl, rfl, rfl, rfl, rfl, rfl, rfl, ?_⟩
  decide

/-- Witness for the amended C7 at a concrete input. -/
theorem ext_append_score_drop_witness :
    (performComprehensiveScan true 0 0 0 ("https://example.com/file" ++ ".exe")).map
        ScanResult.score =
      (performComprehensiveScan true 0 0 0 "https://example.com/file").map
        (fun x => ScanResult.score x - 35) := by
  obtain ⟨r, hr⟩ : ∃ r, performComprehensiveScan true 0 0 0 "https://example.com/file" = some r :=
    ⟨_, rfl⟩
  obtain ⟨r2, hr2⟩ :
      ∃ r2, performComprehensiveScan true 0 0 0 ("https://example.com/file" ++ ".exe") = some r2 :=
    ⟨_, rfl⟩
  have h := ext_append_score_drop true 0 0 0 "https://example.com/file" ".exe"
    ⟨"https:", "example.com", ""⟩ ⟨"https:", "example.com", ""⟩ r r2
    (by decide) rfl rfl (by decide) (by decide) (by decide) (by decide) hr hr2
  rw [hr, hr2]
  show some r2.score = some (r.score - 35)
  rw [h.1]
